import Mathlib

/-!
Verification of the Mirror library: an in-memory mirror of named IndexedDB
object stores.  The definitions below are a shallow embedding of the most
complete source file, src/unnamed/part_001 (the other two files are earlier
revisions of the same code).  JavaScript objects are embedded as ordered
association lists; the mutable arrays that back each storage are embedded as
an explicit heap of arrays addressed by numeric ids, so that the aliasing
behaviour of the source (several Storage views holding references to the same
array, or to detached arrays) is represented faithfully.  Operations that can
throw in JavaScript return an Except value whose error string names the
JavaScript error; persistence writes are fire-and-forget in the source and
are therefore not modelled beyond the synchronous checks (store existence,
keyPath lookup) that can throw.
-/

deriving instance DecidableEq for Except

/-- A JavaScript value stored in a record field: the library's documented
value universe is strings and numbers.  Numbers are embedded as integers. -/
inductive JsValue where
  | str (s : String)
  | num (n : Int)
deriving DecidableEq, Repr

/-- A JavaScript object used as a record: an ordered association list from
field names to values, in property insertion order. -/
abbrev Record := List (String × JsValue)

/-- Field read: first binding of the key, none embeds JavaScript undefined. -/
def getField (r : Record) (k : String) : Option JsValue :=
  List.lookup k r

/-- JavaScript property assignment on an ordered object: an existing key keeps
its position and gets the new value, a fresh key is appended at the end. -/
def assocPut {β : Type} (l : List (String × β)) (k : String) (v : β) :
    List (String × β) :=
  match l with
  | [] => [(k, v)]
  | (k', v') :: rest =>
    if k' = k then (k, v) :: rest else (k', v') :: assocPut rest k v

/-- Digits-only decimal reading used by the embedded string-to-number
coercion; none embeds NaN. -/
def decDigits (cs : List Char) : Option Nat :=
  cs.foldl
    (fun acc c =>
      match acc with
      | none => none
      | some n => if c.isDigit then some (n * 10 + (c.toNat - 48)) else none)
    (some 0)

/-- JavaScript ToNumber on a string, restricted to the integer literals that
exist in the embedded value universe: surrounding whitespace is trimmed, the
empty string reads as 0, an optional sign is allowed, anything else is NaN
(none). -/
def jsToNumber (s : String) : Option Int :=
  let t := s.trim
  if t = "" then some 0
  else
    match t.toList with
    | '-' :: rest =>
      if rest.isEmpty then none else (decDigits rest).map (fun n => -(n : Int))
    | '+' :: rest =>
      if rest.isEmpty then none else (decDigits rest).map (fun n => (n : Int))
    | cs => (decDigits cs).map (fun n => (n : Int))

/-- JavaScript loose equality on the embedded value universe: same-type
comparison is ordinary equality, a string compared with a number is coerced
with ToNumber. -/
def jsEq : JsValue → JsValue → Bool
  | .num a, .num b => a == b
  | .str a, .str b => a == b
  | .str a, .num b => jsToNumber a == some b
  | .num a, .str b => some a == jsToNumber b

/-- Loose equality of a possibly-undefined field against a present value:
undefined is loosely equal to no string and no number. -/
def jsEqLV : Option JsValue → JsValue → Bool
  | none, _ => false
  | some a, b => jsEq a b

/-- Loose equality of two possibly-undefined fields, as used by the join:
undefined is loosely equal to undefined only. -/
def jsEqOO : Option JsValue → Option JsValue → Bool
  | none, none => true
  | some a, some b => jsEq a b
  | _, _ => false

/-- Does the character list hay start with pat? -/
def chStarts : List Char → List Char → Bool
  | [], _ => true
  | _ :: _, [] => false
  | a :: as, b :: bs => a == b && chStarts as bs

/-- Does the character list hay contain pat as a contiguous run? -/
def chHas : List Char → List Char → Bool
  | pat, [] => pat.isEmpty
  | pat, hay@(_ :: rest) => chStarts pat hay || chHas pat rest

/-- The source's substring test s.indexOf(pat) > -1. -/
def strContains (s pat : String) : Bool :=
  chHas pat.toList s.toList

/-- Object-store configuration passed to createStorage; the claims only
exercise the keyPath component. -/
structure StoreOpts where
  keyPath : String
deriving DecidableEq, Repr

/-- The state owned by a Mirror instance.  storageConfig is the declared
schema (it also determines which object stores exist on the IndexedDB
connection after open, and their keyPaths); storageData is the registry
mapping a storage name to the heap id of its in-memory array; heap holds
every live array, addressed by id (its index). -/
structure MirrorState where
  storageConfig : List (String × StoreOpts)
  storageData : List (String × Nat)
  heap : List (List Record)
deriving DecidableEq, Repr

/-- Read a heap array by id. -/
def heapGet (h : List (List Record)) (i : Nat) : List Record :=
  h.getD i []

/-- Overwrite a heap array in place. -/
def heapSet (h : List (List Record)) (i : Nat) (a : List Record) :
    List (List Record) :=
  h.set i a

/-- Allocate a fresh array, returning the grown heap and the new id. -/
def heapAlloc (h : List (List Record)) (a : List Record) :
    List (List Record) × Nat :=
  (h ++ [a], h.length)

/-- A Mirror.Storage view.  idbStorageName and dataRef embed the two data
properties of the source constructor (the name, and the reference to the
backing array).  The seven has-flags embed whether the corresponding method
is still callable: select and innerjoin set those method slots to undefined
on their result, and calling undefined throws a TypeError. -/
structure StorageView where
  idbStorageName : String
  dataRef : Nat
  hasGetTransaction : Bool
  hasTruncate : Bool
  hasInsert : Bool
  hasGet : Bool
  hasGetIndex : Bool
  hasDelete : Bool
  hasUpdate : Bool
deriving DecidableEq, Repr

/-- The Mirror.Storage constructor: storageData is mi.storageData[name] when
the registry has the name (an empty array is truthy, so it is used even when
empty), otherwise a freshly allocated detached empty array that is not
recorded in the registry. -/
def mkStorage (st : MirrorState) (name : String) : MirrorState × StorageView :=
  match List.lookup name st.storageData with
  | some id => (st, ⟨name, id, true, true, true, true, true, true, true⟩)
  | none =>
    let al := heapAlloc st.heap []
    ({ st with heap := al.1 },
      ⟨name, al.2, true, true, true, true, true, true, true⟩)

/-- Mirror.prototype.with: builds a Mirror.Storage over the named storage. -/
def mirrorWith (st : MirrorState) (name : String) :
    MirrorState × StorageView :=
  mkStorage st name

/-- The array a view currently reads through its captured reference. -/
def viewData (st : MirrorState) (v : StorageView) : List Record :=
  heapGet st.heap v.dataRef

/-- fetchall: returns the view's backing array. -/
def fetchall (st : MirrorState) (v : StorageView) : List Record :=
  viewData st v

/-- count: length of the view's backing array. -/
def countRecords (st : MirrorState) (v : StorageView) : Nat :=
  (viewData st v).length

/-- Does the IndexedDB connection have an object store of this name?  Stores
are created at upgrade time from storageConfig, so existence coincides with
presence in the declared configuration. -/
def storeExists (st : MirrorState) (name : String) : Bool :=
  (List.lookup name st.storageConfig).isSome

/-- The keyPath of the named object store, as read off the transaction. -/
def keyPathOf (st : MirrorState) (name : String) : Option String :=
  (List.lookup name st.storageConfig).map StoreOpts.keyPath

/-- getTransaction: throws TypeError when the method slot was disabled, and
NotFoundError when the connection has no store of the view's name. -/
def callGetTransaction (st : MirrorState) (v : StorageView) :
    MirrorState × Except String Unit :=
  if v.hasGetTransaction then
    if storeExists st v.idbStorageName then (st, .ok ())
    else (st, .error "NotFoundError")
  else (st, .error "TypeError")

/-- truncate (part_001 revision): rebinds the registry entry for the view's
name to a freshly allocated empty array, then issues the store clear.  The
view's own captured reference is not touched. -/
def callTruncate (st : MirrorState) (v : StorageView) :
    MirrorState × Except String Unit :=
  if v.hasTruncate then
    let al := heapAlloc st.heap []
    let st1 : MirrorState :=
      { st with
        heap := al.1
        storageData := assocPut st.storageData v.idbStorageName al.2 }
    if storeExists st1 v.idbStorageName then (st1, .ok ())
    else (st1, .error "NotFoundError")
  else (st, .error "TypeError")

/-- insert: pushes the record onto the view's backing array, then issues the
fire-and-forget store add (which throws NotFoundError first when the store
does not exist — after the in-memory push already happened).  Returns the
record unchanged. -/
def callInsert (st : MirrorState) (v : StorageView) (o : Record) :
    MirrorState × Except String Record :=
  if v.hasInsert then
    let st1 : MirrorState :=
      { st with
        heap := heapSet st.heap v.dataRef (heapGet st.heap v.dataRef ++ [o]) }
    if storeExists st1 v.idbStorageName then (st1, .ok o)
    else (st1, .error "NotFoundError")
  else (st, .error "TypeError")

/-- The linear scan of getIndex: index of the first record satisfying the
test, none embedding the source's false result. -/
def scanIdx (p : Record → Bool) : List Record → Option Nat
  | [] => none
  | r :: rest => if p r then some 0 else (scanIdx p rest).map (· + 1)

/-- The body of getIndex: reads the keyPath off a readonly transaction (which
throws NotFoundError for a nonexistent store), then scans for the first
record whose keyPath field is loosely equal to the key; none embeds the
source's false result. -/
def getIndexRaw (st : MirrorState) (v : StorageView) (key : JsValue) :
    Except String (Option Nat) :=
  match keyPathOf st v.idbStorageName with
  | none => .error "NotFoundError"
  | some kp =>
    .ok (scanIdx (fun r => jsEqLV (getField r kp) key) (viewData st v))

/-- The body of get: index lookup followed by array read. -/
def getRaw (st : MirrorState) (v : StorageView) (key : JsValue) :
    Except String (Option Record) :=
  match getIndexRaw st v key with
  | .error e => .error e
  | .ok none => .ok none
  | .ok (some i) => .ok ((viewData st v)[i]?)

/-- getIndex as a method call (TypeError when disabled). -/
def callGetIndex (st : MirrorState) (v : StorageView) (key : JsValue) :
    MirrorState × Except String (Option Nat) :=
  if v.hasGetIndex then (st, getIndexRaw st v key)
  else (st, .error "TypeError")

/-- get as a method call (TypeError when disabled). -/
def callGet (st : MirrorState) (v : StorageView) (key : JsValue) :
    MirrorState × Except String (Option Record) :=
  if v.hasGet then (st, getRaw st v key)
  else (st, .error "TypeError")

/-- delete: finds the record by key, re-reads it, splices it out of the
backing array, issues the fire-and-forget store delete and returns the
removed record; returns the false result (none) when the key is absent. -/
def callDelete (st : MirrorState) (v : StorageView) (key : JsValue) :
    MirrorState × Except String (Option Record) :=
  if v.hasDelete then
    match getIndexRaw st v key with
    | .error e => (st, .error e)
    | .ok none => (st, .ok none)
    | .ok (some i) =>
      let tmp := (viewData st v)[i]?
      let st1 : MirrorState :=
        { st with
          heap := heapSet st.heap v.dataRef ((viewData st v).eraseIdx i) }
      (st1, .ok tmp)
  else (st, .error "TypeError")

/-- A key/value pair object, used both as the match filter and as one entry
of the update changes array. -/
structure FieldFilter where
  key : String
  value : JsValue
deriving DecidableEq, Repr

/-- The update changes loop: each change overwrites its field in turn, so a
later change to the same field wins. -/
def applyChanges (r : Record) (cs : List FieldFilter) : Record :=
  cs.foldl (fun a c => assocPut a c.key c.value) r

/-- update: looks the record up by key; on a hit the JavaScript code mutates
the record object in place (so the array element at the found index already
holds the changed record), then re-runs getIndex on the changed array and
writes the record back at whatever index that returns (a miss makes the
write-back a non-index property assignment that leaves the sequence alone),
and finally issues the fire-and-forget put.  On a key miss the source reads
the false sentinel and the subsequent put(false) throws DataError with the
memory untouched. -/
def callUpdate (st : MirrorState) (v : StorageView) (key : JsValue)
    (cs : List FieldFilter) : MirrorState × Except String Unit :=
  if v.hasUpdate then
    match getIndexRaw st v key with
    | .error e => (st, .error e)
    | .ok none => (st, .error "DataError")
    | .ok (some i) =>
      match (viewData st v)[i]? with
      | none => (st, .error "DataError")
      | some r =>
        let r' := applyChanges r cs
        let d1 := (viewData st v).set i r'
        let st1 : MirrorState := { st with heap := heapSet st.heap v.dataRef d1 }
        match getIndexRaw st1 v key with
        | .error e => (st1, .error e)
        | .ok none => (st1, .ok ())
        | .ok (some j) =>
          ({ st1 with heap := heapSet st1.heap v.dataRef (d1.set j r') },
            .ok ())
  else (st, .error "TypeError")

/-- match returns either the distinguished no-records signal (the source's
false, for an empty storage) or the list of matching records. -/
inductive MatchResult where
  | noRecords
  | rows (rs : List Record)
deriving DecidableEq, Repr

/-- The match scan.  With a textual filter value the source calls indexOf on
the record's field, which throws TypeError when that field is missing or not
a string (the exception discards any rows matched so far); with a numeric
filter value it uses loose equality. -/
def matchScan (f : FieldFilter) : List Record → Except String (List Record)
  | [] => .ok []
  | r :: rest =>
    match f.value with
    | .str s =>
      match getField r f.key with
      | some (.str fv) =>
        match matchScan f rest with
        | .error e => .error e
        | .ok tl => .ok (if strContains fv s then r :: tl else tl)
      | _ => .error "TypeError"
    | .num n =>
      match matchScan f rest with
      | .error e => .error e
      | .ok tl => .ok (if jsEqLV (getField r f.key) (.num n) then r :: tl else tl)

/-- match: the no-records signal on an empty storage, otherwise the scan. -/
def callMatch (st : MirrorState) (v : StorageView) (f : FieldFilter) :
    Except String MatchResult :=
  let d := viewData st v
  if 0 < d.length then
    match matchScan f d with
    | .error e => .error e
    | .ok rs => .ok (.rows rs)
  else .ok .noRecords

/-- Disable the seven method slots that select and innerjoin set to
undefined on their result. -/
def restrictView (v : StorageView) : StorageView :=
  { v with
    hasGetTransaction := false
    hasTruncate := false
    hasInsert := false
    hasGet := false
    hasGetIndex := false
    hasDelete := false
    hasUpdate := false }

/-- The source's column renaming: a key is prefixed with the originating
storage's name and a dot, except when that storage is the reserved derived
result (TMPSTORAGE), whose keys are kept as they are. -/
def colKey (srcName k : String) : String :=
  if srcName = "TMPSTORAGE" then k else srcName ++ "." ++ k

/-- One projected row of select: the record's own fields are walked in order
and the ones listed in fields are written into a fresh object under their
renamed key. -/
def selectRow (srcName : String) (fields : List String) (r : Record) : Record :=
  r.foldl
    (fun a kv =>
      if fields.contains kv.1 then assocPut a (colKey srcName kv.1) kv.2 else a)
    []

/-- select: builds a TMPSTORAGE result view, pushes every projection that
retained at least one field, and disables the seven mutation slots.  (The
push loop is modelled as a batch append; this matches the source whenever
the result's buffer is not the very array being iterated, which the
theorems' no-TMPSTORAGE-collection hypothesis guarantees.) -/
def callSelect (st : MirrorState) (v : StorageView) (fields : List String) :
    MirrorState × StorageView :=
  let m1 := mkStorage st "TMPSTORAGE"
  let rows := (viewData m1.1 v).foldl
    (fun acc r =>
      if (selectRow v.idbStorageName fields r).isEmpty then acc
      else acc ++ [selectRow v.idbStorageName fields r])
    []
  let st2 : MirrorState :=
    { m1.1 with
      heap := heapSet m1.1.heap m1.2.dataRef
        (heapGet m1.1.heap m1.2.dataRef ++ rows) }
  (st2, restrictView m1.2)

/-- Merge one source record into a result object under renamed keys. -/
def mergeRow (dst : Record) (srcName : String) (r : Record) : Record :=
  r.foldl (fun a kv => assocPut a (colKey srcName kv.1) kv.2) dst

/-- The innerjoin criteria object; joinOn embeds the source's on field
(on is a reserved word in Lean). -/
structure JoinFilter where
  joinOn : String
  equals : String
deriving DecidableEq, Repr

/-- The nested-loop join of the source: left-outer iteration order by
right-inner iteration order, one merged record per loosely-equal pair, left
fields written first and right fields second. -/
def joinRows (leftName rightName : String) (flt : JoinFilter)
    (ld rd : List Record) : List Record :=
  ld.foldl
    (fun acc lr =>
      rd.foldl
        (fun acc2 rr =>
          if jsEqOO (getField lr flt.joinOn) (getField rr flt.equals) then
            acc2 ++ [mergeRow (mergeRow [] leftName lr) rightName rr]
          else acc2)
        acc)
    []

/-- innerjoin: loads the second storage as a view, builds a TMPSTORAGE result
view, pushes the joined rows and disables the seven mutation slots. -/
def callInnerjoin (st : MirrorState) (v : StorageView) (secondStorage : String)
    (flt : JoinFilter) : MirrorState × StorageView :=
  let m1 := mkStorage st secondStorage
  let m2 := mkStorage m1.1 "TMPSTORAGE"
  let rows := joinRows v.idbStorageName m1.2.idbStorageName flt
    (viewData m2.1 v) (viewData m2.1 m1.2)
  let st3 : MirrorState :=
    { m2.1 with
      heap := heapSet m2.1.heap m2.2.dataRef
        (heapGet m2.1.heap m2.2.dataRef ++ rows) }
  (st3, restrictView m2.2)

/-! ## The Sync Coordinator

Mirror.prototype.sync runs a synchronous loop that, for every object store,
binds a fresh empty array into the registry and opens a cursor; the cursor
callbacks then fire asynchronously, one event per record plus one exhaustion
event per store, in an arbitrary interleaving.  The machine below embeds
this: syncInit performs the loop's synchronous prologue (object store names
are unique in IndexedDB, so the per-name registry assignments amount to the
zip), and syncStep processes one cursor event of the collection named by a
schedule index (a yield moves one pending record into the registry array, an
exhaustion increments the shared counter and fires oncomplete when the
counter reaches the number of stores; completions counts those firings). -/

/-- Per-collection cursor state: the store's name, the records its cursor
has not yet yielded, and whether the cursor has signalled exhaustion. -/
structure SyncCol where
  name : String
  pending : List Record
  drained : Bool
deriving DecidableEq, Repr

/-- The whole sync machine: the Mirror state, the per-collection cursor
states, the shared completion counter and the number of oncomplete calls. -/
structure SyncState where
  st : MirrorState
  cols : List SyncCol
  counter : Nat
  completions : Nat
deriving DecidableEq, Repr

/-- The synchronous prologue of sync on a freshly constructed Mirror: every
store name is bound in the registry to its own fresh empty array, every
cursor starts with the store's persisted records pending. -/
def syncInit (colls : List (String × List Record)) : SyncState :=
  { st :=
      { storageConfig := []
        storageData := (colls.map Prod.fst).zip (List.range colls.length)
        heap := colls.map (fun _ => []) }
    cols := colls.map (fun p => { name := p.1, pending := p.2, drained := false })
    counter := 0
    completions := 0 }

/-- One cursor event for the collection at schedule index i.  A pending
record is pushed onto the registry array for that collection's name; an
exhausted cursor increments the counter and fires oncomplete exactly when
the counter reaches the store count n.  An index with no collection, or a
collection already drained, is a stutter. -/
def syncStep (n : Nat) (s : SyncState) (i : Nat) : SyncState :=
  match s.cols[i]? with
  | none => s
  | some c =>
    match c.pending with
    | r :: rest =>
      let st' :=
        match List.lookup c.name s.st.storageData with
        | some id =>
          { s.st with heap := heapSet s.st.heap id (heapGet s.st.heap id ++ [r]) }
        | none => s.st
      { s with st := st', cols := s.cols.set i { c with pending := rest } }
    | [] =>
      if c.drained then s
      else
        { s with
          cols := s.cols.set i { c with drained := true }
          counter := s.counter + 1
          completions :=
            if s.counter + 1 = n then s.completions + 1 else s.completions }

/-- Run sync from the prologue through a whole schedule of cursor events. -/
def syncRun (colls : List (String × List Record)) (sched : List Nat) :
    SyncState :=
  sched.foldl (syncStep colls.length) (syncInit colls)

/-- Every collection's cursor has signalled exhaustion. -/
def allDrained (s : SyncState) : Prop :=
  ∀ c ∈ s.cols, c.drained = true

instance (s : SyncState) : Decidable (allDrained s) := by
  unfold allDrained
  infer_instance

/-- Every collection's records sit, complete and in order, in the in-memory
array its name is bound to. -/
def allLoaded (colls : List (String × List Record)) (s : SyncState) : Prop :=
  ∀ (i : Nat) (p : String × List Record), colls[i]? = some p →
    ∃ id, List.lookup p.1 s.st.storageData = some id ∧
      heapGet s.st.heap id = p.2

/-- The inductive invariant of the sync machine: the registry stays the
prologue's zip, the heap and cursor lists stay aligned with the collections,
each collection's loaded prefix plus its pending suffix is its full record
list, a drained cursor has nothing pending, the counter counts drained
cursors, and oncomplete has fired exactly when the counter has reached the
store count. -/
def SyncInv (colls : List (String × List Record)) (s : SyncState) : Prop :=
  s.st.storageData = (colls.map Prod.fst).zip (List.range colls.length) ∧
  s.st.heap.length = colls.length ∧
  s.cols.length = colls.length ∧
  (∀ i c p, s.cols[i]? = some c → colls[i]? = some p →
    c.name = p.1 ∧ heapGet s.st.heap i ++ c.pending = p.2 ∧
    (c.drained = true → c.pending = [])) ∧
  s.counter = s.cols.countP (fun c => c.drained) ∧
  s.completions =
    (if s.counter = colls.length ∧ 0 < colls.length then 1 else 0)

theorem lookup_zip_of_nodup {β : Type} (l : List String) :
    ∀ (l' : List β), l.Nodup →
      ∀ (i : Nat) (a : String), l[i]? = some a → i < l'.length →
        List.lookup a (l.zip l') = l'[i]? := by
  induction l with
  | nil => intro l' _ i a ha _; simp at ha
  | cons x xs ih =>
    intro l' hnd i a ha hi
    cases l' with
    | nil => simp at hi
    | cons y ys =>
      cases i with
      | zero =>
        simp only [List.getElem?_cons_zero, Option.some.injEq] at ha
        subst ha
        simp [List.lookup_cons]
      | succ i =>
        simp only [List.getElem?_cons_succ] at ha
        have hmem : a ∈ xs :=
          List.get?_mem (by simpa [List.get?_eq_getElem?] using ha)
        have hax : (a == x) = false := by
          refine beq_eq_false_iff_ne.mpr ?_
          intro hax
          exact ((List.nodup_cons.mp hnd).1 (hax ▸ hmem))
        simp only [List.zip_cons_cons, List.lookup_cons, hax,
          List.getElem?_cons_succ]
        exact ih ys (List.nodup_cons.mp hnd).2 i a ha (by simpa using hi)

theorem countP_set_same {α : Type} (p : α → Bool) (l : List α) :
    ∀ (j : Nat) (c c' : α), l[j]? = some c → p c' = p c →
      (l.set j c').countP p = l.countP p := by
  induction l with
  | nil => intro j c c' h _; simp at h
  | cons x xs ih =>
    intro j c c' h hp
    cases j with
    | zero =>
      simp only [List.getElem?_cons_zero, Option.some.injEq] at h
      subst h
      simp [List.countP_cons, hp]
    | succ j =>
      simp only [List.getElem?_cons_succ] at h
      simp [List.countP_cons, List.set_cons_succ, ih j c c' h hp]

theorem countP_set_flip {α : Type} (p : α → Bool) (l : List α) :
    ∀ (j : Nat) (c c' : α), l[j]? = some c → p c = false → p c' = true →
      (l.set j c').countP p = l.countP p + 1 := by
  induction l with
  | nil => intro j c c' h _ _; simp at h
  | cons x xs ih =>
    intro j c c' h hc hc'
    cases j with
    | zero =>
      simp only [List.getElem?_cons_zero, Option.some.injEq] at h
      subst h
      simp [List.countP_cons, hc, hc']
    | succ j =>
      simp only [List.getElem?_cons_succ] at h
      simp only [List.set_cons_succ, List.countP_cons,
        ih j c c' h hc hc']
      omega

theorem heapGet_set_self (h : List (List Record)) (i : Nat) (a : List Record)
    (hi : i < h.length) : heapGet (heapSet h i a) i = a := by
  simp [heapGet, heapSet, List.getD_eq_getElem?_getD,
    List.getElem?_set_eq_of_lt a hi]

theorem heapGet_set_ne (h : List (List Record)) (i j : Nat) (a : List Record)
    (hij : i ≠ j) : heapGet (heapSet h i a) j = heapGet h j := by
  simp [heapGet, heapSet, List.getD_eq_getElem?_getD,
    List.getElem?_set_ne hij]

theorem syncInv_init (colls : List (String × List Record)) :
    SyncInv colls (syncInit colls) := by
  refine ⟨rfl, by simp [syncInit], by simp [syncInit], ?_, ?_, ?_⟩
  · intro i c p hc hp
    simp only [syncInit, List.getElem?_map, hp, Option.map_some'] at hc
    cases hc
    refine ⟨rfl, ?_, by intro h; simp at h⟩
    have hh : heapGet (syncInit colls).st.heap i = [] := by
      simp [syncInit, heapGet, List.getD_eq_getElem?_getD,
        List.getElem?_map, hp]
    simpa [syncInit] using hh
  · simp only [syncInit, List.countP_map]
    symm
    refine List.countP_eq_zero.mpr ?_
    intro a _
    simp [Function.comp]
  · simp only [syncInit]
    split
    · next hcond => omega
    · rfl

theorem syncInv_step (colls : List (String × List Record))
    (hnd : (colls.map Prod.fst).Nodup) (s : SyncState)
    (hinv : SyncInv colls s) (i : Nat) :
    SyncInv colls (syncStep colls.length s i) := by
  obtain ⟨hreg, hheap, hcols, hper, hcnt, hcomp⟩ := hinv
  cases hc : s.cols[i]? with
  | none =>
    simp only [syncStep, hc]
    exact ⟨hreg, hheap, hcols, hper, hcnt, hcomp⟩
  | some c =>
    have hi : i < s.cols.length := by
      rcases List.getElem?_eq_some.mp hc with ⟨h, _⟩
      exact h
    have hilen : i < colls.length := hcols ▸ hi
    have hp' : colls[i]? = some colls[i] := List.getElem?_eq_getElem hilen
    obtain ⟨hname, hdata, hdr⟩ := hper i c (colls[i]) hc hp'
    cases hpend : c.pending with
    | cons r rest =>
      have hdrf : c.drained = false := by
        cases hd : c.drained
        · rfl
        · rw [hdr hd] at hpend; cases hpend
      have hlook : List.lookup c.name s.st.storageData = some i := by
        rw [hreg, hname]
        have hnames : (colls.map Prod.fst)[i]? = some (colls[i]).1 := by
          simp [List.getElem?_map, hp']
        rw [lookup_zip_of_nodup _ _ hnd i _ hnames (by simpa using hilen)]
        exact List.getElem?_range hilen
      simp only [syncStep, hc, hpend, hlook]
      refine ⟨hreg, by simpa [heapSet] using hheap, by simpa using hcols,
        ?_, ?_, ?_⟩
      · intro j c2 p2 hc2 hp2
        dsimp only at hc2 ⊢
        by_cases hji : j = i
        · rw [hji] at hc2 hp2 ⊢
          rw [List.getElem?_set_eq_of_lt _ hi] at hc2
          cases hc2
          rw [hp'] at hp2
          cases hp2
          refine ⟨hname, ?_, ?_⟩
          · rw [heapGet_set_self _ _ _ (by rw [hheap]; exact hilen)]
            rw [show (colls[i]).2 = heapGet s.st.heap i ++ c.pending from
              hdata.symm, hpend]
            simp
          · intro h
            rw [hdrf] at h
            cases h
        · rw [List.getElem?_set_ne (fun h => hji h.symm)] at hc2
          obtain ⟨h1, h2, h3⟩ := hper j c2 p2 hc2 hp2
          exact ⟨h1, by
            rw [heapGet_set_ne _ _ _ _ (fun h => hji h.symm)]
            exact h2, h3⟩
      · dsimp only
        rw [countP_set_same (fun c : SyncCol => c.drained) s.cols i c
          { name := c.name, pending := rest, drained := c.drained } hc rfl]
        exact hcnt
      · exact hcomp
    | nil =>
      cases hd : c.drained with
      | true =>
        simp only [syncStep, hc, hpend, hd, if_true]
        exact ⟨hreg, hheap, hcols, hper, hcnt, hcomp⟩
      | false =>
        have hcntne : s.counter ≠ colls.length := by
          intro habs
          have hall : ∀ a ∈ s.cols, (fun c : SyncCol => c.drained) a = true :=
            List.countP_eq_length.mp (by rw [← hcnt, habs, hcols])
          have hcd := hall c (List.get?_mem (by
            simpa [List.get?_eq_getElem?] using hc))
          dsimp only at hcd
          rw [hd] at hcd
          cases hcd
        simp only [syncStep, hc, hpend, hd, Bool.false_eq_true, if_false]
        refine ⟨hreg, hheap, by simpa using hcols, ?_, ?_, ?_⟩
        · intro j c2 p2 hc2 hp2
          dsimp only at hc2 ⊢
          by_cases hji : j = i
          · rw [hji] at hc2 hp2 ⊢
            rw [List.getElem?_set_eq_of_lt _ hi] at hc2
            cases hc2
            rw [hp'] at hp2
            cases hp2
            refine ⟨hname, ?_, fun _ => rfl⟩
            rw [show (colls[i]).2 = heapGet s.st.heap i ++ c.pending from
              hdata.symm, hpend]
          · rw [List.getElem?_set_ne (fun h => hji h.symm)] at hc2
            exact hper j c2 p2 hc2 hp2
        · dsimp only
          rw [countP_set_flip (fun c : SyncCol => c.drained) s.cols i c
            { name := c.name, pending := [], drained := true } hc hd rfl]
          omega
        · dsimp only
          have hcomp0 : s.completions = 0 := by
            rw [hcomp, if_neg (by tauto)]
          rw [hcomp0]
          by_cases hEq : s.counter + 1 = colls.length
          · rw [if_pos hEq, if_pos ⟨hEq, by omega⟩]
          · rw [if_neg hEq, if_neg (by tauto)]

theorem syncInv_run (colls : List (String × List Record))
    (hnd : (colls.map Prod.fst).Nodup) (sched : List Nat) :
    SyncInv colls (syncRun colls sched) := by
  have key : ∀ (sch : List Nat) (s : SyncState), SyncInv colls s →
      SyncInv colls (sch.foldl (syncStep colls.length) s) := by
    intro sch
    induction sch with
    | nil => intro s h; exact h
    | cons a as ih =>
      intro s h
      exact ih _ (syncInv_step colls hnd s h a)
  exact key sched _ (syncInv_init colls)

theorem allLoaded_of_counter (colls : List (String × List Record))
    (hnd : (colls.map Prod.fst).Nodup) (s : SyncState)
    (hinv : SyncInv colls s) (hctr : s.counter = colls.length) :
    allLoaded colls s := by
  obtain ⟨hreg, hheap, hcols, hper, hcnt, hcompl⟩ := hinv
  unfold allLoaded
  intro i p hp
  have hilen : i < colls.length := by
    rcases List.getElem?_eq_some.mp hp with ⟨h, _⟩
    exact h
  have hci : s.cols[i]? = some s.cols[i] :=
    List.getElem?_eq_getElem (hcols ▸ hilen)
  obtain ⟨hname, hdata, hdr⟩ := hper i _ p hci hp
  have hall : ∀ a ∈ s.cols, (fun c : SyncCol => c.drained) a = true :=
    List.countP_eq_length.mp (by rw [← hcnt, hctr, hcols])
  have hdrained : (s.cols[i]).drained = true := by
    have := hall _ (List.get?_mem ((List.get?_eq_getElem? _ _).trans hci))
    simpa using this
  have hpend : (s.cols[i]).pending = [] := hdr hdrained
  refine ⟨i, ?_, ?_⟩
  · rw [hreg, ← hname]
    have hnames : (colls.map Prod.fst)[i]? = some (s.cols[i]).name := by
      simp [List.getElem?_map, hp, hname]
    rw [lookup_zip_of_nodup _ _ hnd i _ hnames (by simpa using hilen)]
    exact List.getElem?_range hilen
  · rw [← hdata, hpend]
    simp

/-- Claim C1: for every open on a store with at least one collection (store
names are unique in IndexedDB, whence the Nodup hypothesis), and every
interleaving of the per-collection cursor events, the sync completion
callback has been invoked at most once whenever it has been invoked at all
and only at a point where every collection's cursor has been fully drained
into its registry array; and on any schedule that drains every cursor it has
been invoked exactly once. -/
theorem sync_oncomplete_exactly_once_after_full_drain
    (colls : List (String × List Record))
    (hnd : (colls.map Prod.fst).Nodup) (hn : 0 < colls.length) :
    (∀ sched : List Nat, 1 ≤ (syncRun colls sched).completions →
        (syncRun colls sched).completions = 1 ∧
          allLoaded colls (syncRun colls sched)) ∧
    (∀ sched : List Nat, allDrained (syncRun colls sched) →
        (syncRun colls sched).completions = 1) := by
  constructor
  · intro sched hge
    have hcomp := (syncInv_run colls hnd sched).2.2.2.2.2
    have hcond : (syncRun colls sched).counter = colls.length ∧
        0 < colls.length := by
      by_contra hne
      rw [hcomp, if_neg hne] at hge
      exact absurd hge (by omega)
    refine ⟨by rw [hcomp, if_pos hcond], ?_⟩
    exact allLoaded_of_counter colls hnd _ (syncInv_run colls hnd sched)
      hcond.1
  · intro sched hall
    have hcnt := (syncInv_run colls hnd sched).2.2.2.2.1
    have hcols := (syncInv_run colls hnd sched).2.2.1
    have hcomp := (syncInv_run colls hnd sched).2.2.2.2.2
    have hctr : (syncRun colls sched).counter = colls.length := by
      rw [hcnt, List.countP_eq_length.mpr hall, hcols]
    rw [hcomp, if_pos ⟨hctr, hn⟩]

/-- Witness for C1: a concrete store with a one-record collection X and an
empty collection Y, and a concrete schedule that drains Y first, fires the
completion callback exactly once. -/
theorem sync_oncomplete_exactly_once_after_full_drain_witness :
    (syncRun [("X", [[("id", JsValue.num 1)]]), ("Y", [])]
      [1, 0, 0]).completions = 1 :=
  (sync_oncomplete_exactly_once_after_full_drain
    [("X", [[("id", JsValue.num 1)]]), ("Y", [])]
    (by decide) (by decide)).2 [1, 0, 0] (by decide)

/-- Claim C2 (code bug in the source): with zero object stores the sync loop
body never runs, so the counter stays 0 and oncomplete is never invoked —
under every schedule of cursor events — whereas the specification requires
onReady to still fire on a store with zero collections. -/
theorem sync_zero_collections_never_completes (sched : List Nat) :
    (syncRun [] sched).completions = 0 := by
  have hstep : ∀ s : SyncState, s.cols = [] → ∀ i, syncStep 0 s i = s := by
    intro s hs i
    simp [syncStep, hs]
  have key : ∀ (sch : List Nat) (s : SyncState), s.cols = [] →
      sch.foldl (syncStep 0) s = s := by
    intro sch
    induction sch with
    | nil => intro s _; rfl
    | cons a as ih =>
      intro s hs
      rw [List.foldl_cons, hstep s hs a]
      exact ih s hs
  have : syncRun [] sched = syncInit [] := by
    unfold syncRun
    exact key sched (syncInit []) rfl
  rw [this]
  rfl

/-! ## Concrete states shared by the claim theorems -/

/-- A sample record keyed by id = 1. -/
def recA : Record := [("id", JsValue.num 1), ("name", JsValue.str "a")]

/-- A second sample record with the same key 1 but a different name. -/
def recB : Record := [("id", JsValue.num 1), ("name", JsValue.str "b")]

/-- A Mirror state with one synced collection X holding recA, keyed by id. -/
def stOneRec : MirrorState :=
  { storageConfig := [("X", { keyPath := "id" })]
    storageData := [("X", 0)]
    heap := [[recA]] }

/-- The view of X over stOneRec. -/
def vOneRec : StorageView := (mkStorage stOneRec "X").2

/-- A Mirror state with one synced, empty collection X, keyed by id. -/
def stEmptyX : MirrorState :=
  { storageConfig := [("X", { keyPath := "id" })]
    storageData := [("X", 0)]
    heap := [[]] }

/-- The view of X over stEmptyX. -/
def vEmptyX : StorageView := (mkStorage stEmptyX "X").2

/-- Claim C3 (code bug in the source): calling truncate on the view of the
one-record collection X succeeds, yet count on the same view still returns 1
and fetchall still returns the old record — the view keeps its stale array
reference while truncate only rebinds the registry (now pointing at the
fresh empty array with heap id 1).  The source's own documentation says
truncate deletes all data in the current storage, and the specification says
truncate drives count to 0 and fetchall to the empty sequence. -/
theorem truncate_leaves_same_view_stale :
    (callTruncate stOneRec vOneRec).2 = .ok () ∧
    countRecords (callTruncate stOneRec vOneRec).1 vOneRec = 1 ∧
    fetchall (callTruncate stOneRec vOneRec).1 vOneRec = [recA] ∧
    List.lookup "X" (callTruncate stOneRec vOneRec).1.storageData = some 1 ∧
    heapGet (callTruncate stOneRec vOneRec).1.heap 1 = [] := by
  decide

/-! ## Claim C4: match -/

/-- The per-record test the match scan applies when it does not throw:
loose equality against a numeric filter value, substring containment of a
textual filter value in the record's (textual) field. -/
def matchPred (f : FieldFilter) (r : Record) : Bool :=
  match f.value with
  | .num n => jsEqLV (getField r f.key) (.num n)
  | .str s =>
    match getField r f.key with
    | some (.str fv) => strContains fv s
    | _ => false

/-- Does the record hold a textual value at field k?  (The match scan throws
exactly on records failing this when the filter value is textual.) -/
def isStrField (r : Record) (k : String) : Bool :=
  match getField r k with
  | some (.str _) => true
  | _ => false

theorem isStrField_exists (r : Record) (k : String)
    (h : isStrField r k = true) :
    ∃ fv : String, getField r k = some (.str fv) := by
  unfold isStrField at h
  cases hgf : getField r k with
  | none => rw [hgf] at h; simp at h
  | some w =>
    cases w with
    | str fv => exact ⟨fv, rfl⟩
    | num n => rw [hgf] at h; simp at h

theorem matchScan_eq_filter (f : FieldFilter) (l : List Record)
    (hok : ∀ s : String, f.value = .str s → ∀ r ∈ l,
      ∃ fv : String, getField r f.key = some (.str fv)) :
    matchScan f l = .ok (l.filter (matchPred f)) := by
  induction l with
  | nil =>
    cases hv : f.value <;> simp [matchScan]
  | cons r rest ih =>
    have ihrest := ih (fun s hs r' hr' => hok s hs r' (List.mem_cons_of_mem _ hr'))
    cases hv : f.value with
    | str s =>
      obtain ⟨fv, hfv⟩ := hok s hv r (List.mem_cons_self _ _)
      simp only [matchScan, hv, hfv, ihrest, List.filter_cons, matchPred]
    | num n =>
      simp only [matchScan, hv, ihrest, List.filter_cons, matchPred]

/-- Claim C4 (amended): on a non-empty collection, match with a numeric
filter value returns exactly the records whose field is loosely equal to it;
with a textual filter value — provided every record holds a textual value at
the filtered field — it returns exactly the records whose field contains the
value as a substring (otherwise the call throws a TypeError, see the
counterexample theorem); and on an empty collection it returns the
distinguished no-records signal instead of an empty match sequence. -/
theorem match_characterization (st : MirrorState) (v : StorageView)
    (f : FieldFilter) :
    (viewData st v ≠ [] →
      ((∀ n : Int, f.value = .num n →
          callMatch st v f = .ok (.rows ((viewData st v).filter
            (fun r => jsEqLV (getField r f.key) (.num n))))) ∧
       (∀ s : String, f.value = .str s →
          (∀ r ∈ viewData st v, isStrField r f.key = true) →
          callMatch st v f = .ok (.rows ((viewData st v).filter
            (fun r => match getField r f.key with
                      | some (.str fv) => strContains fv s
                      | _ => false)))))) ∧
    (viewData st v = [] → callMatch st v f = .ok .noRecords) := by
  constructor
  · intro hne
    have hlen : 0 < (viewData st v).length := List.length_pos.mpr hne
    constructor
    · intro n hv
      have hscan := matchScan_eq_filter f (viewData st v)
        (fun s hs _ _ => by rw [hv] at hs; cases hs)
      simp only [callMatch, if_pos hlen, hscan]
      congr 1
      congr 1
      refine List.filter_congr ?_
      intro r _
      simp [matchPred, hv]
    · intro s hv hall
      have hscan := matchScan_eq_filter f (viewData st v)
        (fun s' hs' r hr => by
          rw [hv] at hs'
          cases hs'
          exact isStrField_exists r f.key (hall r hr))
      simp only [callMatch, if_pos hlen, hscan]
      congr 1
      congr 1
      refine List.filter_congr ?_
      intro r _
      simp [matchPred, hv]
  · intro hempty
    simp [callMatch, hempty]

/-- A Mirror state whose collection X holds two records with textual t
fields. -/
def stMatchW : MirrorState :=
  { storageConfig := [("X", { keyPath := "id" })]
    storageData := [("X", 0)]
    heap := [[[("id", JsValue.num 1), ("t", JsValue.str "hello")],
              [("id", JsValue.num 2), ("t", JsValue.str "world")]]] }

/-- The view of X over stMatchW. -/
def vMatchW : StorageView := (mkStorage stMatchW "X").2

/-- A Mirror state whose collection X holds one record with a numeric f
field. -/
def stNumField : MirrorState :=
  { storageConfig := [("X", { keyPath := "f" })]
    storageData := [("X", 0)]
    heap := [[[("f", JsValue.num 5)]]] }

/-- The view of X over stNumField. -/
def vNumField : StorageView := (mkStorage stNumField "X").2

/-- Witness for C4 on a concrete two-record collection with textual fields:
match with the textual value "ell" returns exactly the record containing it. -/
theorem match_characterization_witness :
    callMatch stMatchW vMatchW ⟨"t", JsValue.str "ell"⟩ =
      .ok (.rows [[("id", JsValue.num 1), ("t", JsValue.str "hello")]]) := by
  have h := ((match_characterization stMatchW vMatchW
    ⟨"t", JsValue.str "ell"⟩).1 (by decide)).2 "ell" rfl (by decide)
  rw [h]
  decide

/-- Claim C4 counterexample: on the non-empty collection X = [{f: 5}], match
with the textual value "5" on field f throws a TypeError in the source
(number values have no indexOf) instead of returning any sequence of
matching records — in particular it does not return the empty match
sequence the claim's reading would require. -/
theorem match_textual_on_nonstring_field_throws :
    callMatch stNumField vNumField ⟨"f", JsValue.str "5"⟩ =
      .error "TypeError" ∧
    callMatch stNumField vNumField ⟨"f", JsValue.str "5"⟩ ≠
      .ok (.rows []) := by
  decide

/-! ## Claims C5 and C6: innerjoin and select -/

theorem heapGet_append_lt (h h' : List (List Record)) (i : Nat)
    (hi : i < h.length) : heapGet (h ++ h') i = heapGet h i := by
  simp [heapGet, List.getD_eq_getElem?_getD, List.getElem?_append, hi]

theorem heapGet_append_self (h : List (List Record)) (a : List Record) :
    heapGet (h ++ [a]) h.length = a := by
  simp [heapGet, List.getD_eq_getElem?_getD, List.getElem?_concat_length]

/-- The column renaming applied to a whole record. -/
def renameRec (n : String) (r : Record) : Record :=
  r.map (fun kv => (colKey n kv.1, kv.2))

/-- The renamed keys of a record. -/
def renKeys (n : String) (r : Record) : List String :=
  r.map (fun kv => colKey n kv.1)

theorem map_fst_renameRec (n : String) (r : Record) :
    (renameRec n r).map Prod.fst = renKeys n r := by
  simp [renameRec, renKeys, List.map_map, Function.comp]

theorem isEmpty_renameRec (n : String) (r : Record) :
    (renameRec n r).isEmpty = r.isEmpty := by
  cases r <;> rfl

theorem assocPut_append_of_not_mem (r : Record) (k : String) (v : JsValue)
    (h : k ∉ r.map Prod.fst) : assocPut r k v = r ++ [(k, v)] := by
  induction r with
  | nil => rfl
  | cons kv rest ih =>
    rcases kv with ⟨k', v'⟩
    simp only [List.map_cons, List.mem_cons] at h
    push_neg at h
    simp only [assocPut]
    rw [if_neg (fun hh : k' = k => h.1 hh.symm), ih h.2]
    rfl

theorem mergeRow_eq_append (n : String) :
    ∀ (r dst : Record),
      (renKeys n r).Nodup →
      (∀ k ∈ renKeys n r, k ∉ dst.map Prod.fst) →
      mergeRow dst n r = dst ++ renameRec n r := by
  intro r
  induction r with
  | nil => intro dst _ _; simp [mergeRow, renameRec]
  | cons kv rest ih =>
    intro dst hnd hdisj
    simp only [mergeRow, List.foldl_cons]
    have hstep : assocPut dst (colKey n kv.1) kv.2 =
        dst ++ [(colKey n kv.1, kv.2)] :=
      assocPut_append_of_not_mem dst _ _ (hdisj _ (by simp [renKeys]))
    rw [hstep]
    have hnd' : (colKey n kv.1 :: renKeys n rest).Nodup := by
      simpa [renKeys] using hnd
    have ihap := ih (dst ++ [(colKey n kv.1, kv.2)])
      (List.nodup_cons.mp hnd').2
      (by
        intro k hk hmem
        rw [List.map_append, List.mem_append] at hmem
        rcases hmem with hmem | hmem
        · exact hdisj k (by simp [renKeys]; right; simpa [renKeys] using hk) hmem
        · simp at hmem
          exact (List.nodup_cons.mp hnd').1 (hmem ▸ hk))
    rw [show List.foldl (fun a kv => assocPut a (colKey n kv.1) kv.2)
        (dst ++ [(colKey n kv.1, kv.2)]) rest =
        mergeRow (dst ++ [(colKey n kv.1, kv.2)]) n rest from rfl, ihap]
    simp [renameRec]

theorem selectRow_fold_eq (n : String) (p : String × JsValue → Bool) :
    ∀ (r acc : Record),
      (renKeys n (r.filter p)).Nodup →
      (∀ k ∈ renKeys n (r.filter p), k ∉ acc.map Prod.fst) →
      r.foldl (fun a kv => if p kv then assocPut a (colKey n kv.1) kv.2 else a)
          acc
        = acc ++ renameRec n (r.filter p) := by
  intro r
  induction r with
  | nil => intro acc _ _; simp [renameRec]
  | cons kv rest ih =>
    intro acc hnd hdisj
    simp only [List.foldl_cons]
    by_cases hp : p kv
    · rw [if_pos hp]
      have hfilter : (kv :: rest).filter p = kv :: rest.filter p := by
        simp [List.filter_cons, hp]
      rw [hfilter] at hnd hdisj
      have hnd' : (colKey n kv.1 :: renKeys n (rest.filter p)).Nodup := by
        simpa [renKeys] using hnd
      have hstep : assocPut acc (colKey n kv.1) kv.2 =
          acc ++ [(colKey n kv.1, kv.2)] :=
        assocPut_append_of_not_mem acc _ _ (hdisj _ (by simp [renKeys]))
      rw [hstep]
      rw [ih (acc ++ [(colKey n kv.1, kv.2)]) (List.nodup_cons.mp hnd').2
        (by
          intro k hk hmem
          rw [List.map_append, List.mem_append] at hmem
          rcases hmem with hmem | hmem
          · exact hdisj k (by simp [renKeys]; right; simpa [renKeys] using hk)
              hmem
          · simp at hmem
            exact (List.nodup_cons.mp hnd').1 (hmem ▸ hk))]
      rw [hfilter]
      simp [renameRec]
    · rw [if_neg hp]
      have hfilter : (kv :: rest).filter p = rest.filter p := by
        simp [List.filter_cons, hp]
      rw [hfilter] at hnd hdisj
      rw [hfilter]
      exact ih acc hnd hdisj

theorem selectRow_eq (n : String) (fields : List String) (r : Record)
    (hnd : (renKeys n (r.filter (fun kv => fields.contains kv.1))).Nodup) :
    selectRow n fields r =
      renameRec n (r.filter (fun kv => fields.contains kv.1)) := by
  have h := selectRow_fold_eq n (fun kv => fields.contains kv.1) r [] hnd
    (by simp)
  simpa [selectRow] using h

theorem filterMap_congr_on {α β : Type} (f g : α → Option β) (l : List α)
    (h : ∀ a ∈ l, f a = g a) : l.filterMap f = l.filterMap g := by
  induction l with
  | nil => rfl
  | cons a rest ih =>
    simp only [List.filterMap_cons, h a (List.mem_cons_self _ _),
      ih (fun a ha => h a (List.mem_cons_of_mem _ ha))]

theorem flatMap_congr_on {α β : Type} (f g : α → List β) (l : List α)
    (h : ∀ a ∈ l, f a = g a) : l.flatMap f = l.flatMap g := by
  induction l with
  | nil => rfl
  | cons a rest ih =>
    simp only [List.flatMap_cons, h a (List.mem_cons_self _ _),
      ih (fun a ha => h a (List.mem_cons_of_mem _ ha))]

theorem foldRows_eq_filterMap (g : Record → Record) (l : List Record) :
    ∀ acc : List Record,
      l.foldl (fun acc r => if (g r).isEmpty then acc else acc ++ [g r]) acc
        = acc ++ l.filterMap (fun r =>
            if (g r).isEmpty then none else some (g r)) := by
  induction l with
  | nil => intro acc; simp
  | cons r rest ih =>
    intro acc
    simp only [List.foldl_cons, List.filterMap_cons]
    by_cases hp : (g r).isEmpty
    · simp only [hp, if_true]
      simpa using ih acc
    · simp only [hp, if_false, Bool.false_eq_true]
      rw [ih (acc ++ [g r])]
      simp

theorem callSelect_fetchall (st : MirrorState) (v : StorageView)
    (fields : List String)
    (hT : List.lookup "TMPSTORAGE" st.storageData = none)
    (hvref : v.dataRef < st.heap.length)
    (hnd : ∀ r ∈ viewData st v,
      (renKeys v.idbStorageName
        (r.filter (fun kv => fields.contains kv.1))).Nodup) :
    fetchall (callSelect st v fields).1 (callSelect st v fields).2 =
      (viewData st v).filterMap (fun r =>
        if (r.filter (fun kv => fields.contains kv.1)).isEmpty then none
        else some (renameRec v.idbStorageName
          (r.filter (fun kv => fields.contains kv.1)))) := by
  have hmk : mkStorage st "TMPSTORAGE" =
      ({ st with heap := st.heap ++ [[]] },
        ⟨"TMPSTORAGE", st.heap.length,
          true, true, true, true, true, true, true⟩) := by
    simp [mkStorage, hT, heapAlloc]
  have hvd : viewData { st with heap := st.heap ++ [[]] } v = viewData st v := by
    simp only [viewData]
    exact heapGet_append_lt st.heap [[]] v.dataRef hvref
  have hfetch :
      fetchall (callSelect st v fields).1 (callSelect st v fields).2 =
        (viewData st v).foldl
          (fun acc r =>
            if (selectRow v.idbStorageName fields r).isEmpty then acc
            else acc ++ [selectRow v.idbStorageName fields r]) [] := by
    simp only [callSelect, hmk, fetchall, viewData, restrictView]
    rw [heapGet_append_self st.heap []]
    rw [heapGet_set_self _ _ _ (by simp)]
    simp only [List.nil_append]
    congr 1
  rw [hfetch, foldRows_eq_filterMap (selectRow v.idbStorageName fields)
    (viewData st v) []]
  simp only [List.nil_append]
  refine filterMap_congr_on _ _ _ ?_
  intro r hr
  rw [selectRow_eq v.idbStorageName fields r (hnd r hr), isEmpty_renameRec]

/-- Claim C6: select projects each source record onto exactly the listed
fields present in it, renaming each retained field by prefixing it with the
source collection's name and a dot — unless the source is itself a derived
result collection (the reserved TMPSTORAGE name), in which case field names
are kept as they are, so chained selects do not re-prefix — and drops from
the result every record that retains zero fields.  Hypotheses: the view is
live, the registry has no collection that is itself named TMPSTORAGE, and
each record's renamed retained keys are distinct (JavaScript object keys are
unique, and renaming per collection is injective). -/
theorem select_characterization (st : MirrorState) (v : StorageView)
    (fields : List String)
    (hT : List.lookup "TMPSTORAGE" st.storageData = none)
    (hvref : v.dataRef < st.heap.length)
    (hnd : ∀ r ∈ viewData st v,
      (renKeys v.idbStorageName
        (r.filter (fun kv => fields.contains kv.1))).Nodup) :
    (v.idbStorageName ≠ "TMPSTORAGE" →
      fetchall (callSelect st v fields).1 (callSelect st v fields).2 =
        (viewData st v).filterMap (fun r =>
          if (r.filter (fun kv => fields.contains kv.1)).isEmpty then none
          else some ((r.filter (fun kv => fields.contains kv.1)).map
            (fun kv => (v.idbStorageName ++ "." ++ kv.1, kv.2))))) ∧
    (v.idbStorageName = "TMPSTORAGE" →
      fetchall (callSelect st v fields).1 (callSelect st v fields).2 =
        (viewData st v).filterMap (fun r =>
          if (r.filter (fun kv => fields.contains kv.1)).isEmpty then none
          else some (r.filter (fun kv => fields.contains kv.1)))) := by
  have hbase := callSelect_fetchall st v fields hT hvref hnd
  constructor
  · intro hn
    rw [hbase]
    refine filterMap_congr_on _ _ _ ?_
    intro r _
    simp [renameRec, colKey, hn]
  · intro hn
    rw [hbase]
    refine filterMap_congr_on _ _ _ ?_
    intro r _
    simp [renameRec, colKey, hn]

/-- A Mirror state matching the spec's select example: collection X holds
one record with fields a, b, c. -/
def stSelW : MirrorState :=
  { storageConfig := [("X", { keyPath := "a" })]
    storageData := [("X", 0)]
    heap := [[[("a", JsValue.num 1), ("b", JsValue.num 2),
               ("c", JsValue.num 3)]]] }

/-- The view of X over stSelW. -/
def vSelW : StorageView := (mkStorage stSelW "X").2

/-- Witness for C6 at the spec's example: selecting fields a and b of X's
record yields the single derived record with prefixed keys X.a, X.b. -/
theorem select_characterization_witness :
    fetchall (callSelect stSelW vSelW ["a", "b"]).1
        (callSelect stSelW vSelW ["a", "b"]).2 =
      [[("X.a", JsValue.num 1), ("X.b", JsValue.num 2)]] := by
  have h := (select_characterization stSelW vSelW ["a", "b"] rfl (by decide)
    (by decide)).1 (by decide)
  rw [h]
  decide

theorem joinInner_eq (ln rn : String) (flt : JoinFilter) (lr : Record)
    (rd : List Record) :
    ∀ acc : List Record,
      rd.foldl (fun acc2 rr =>
          if jsEqOO (getField lr flt.joinOn) (getField rr flt.equals) then
            acc2 ++ [mergeRow (mergeRow [] ln lr) rn rr]
          else acc2) acc
        = acc ++ (rd.filter (fun rr =>
            jsEqOO (getField lr flt.joinOn) (getField rr flt.equals))).map
            (fun rr => mergeRow (mergeRow [] ln lr) rn rr) := by
  induction rd with
  | nil => intro acc; simp
  | cons rr rest ih =>
    intro acc
    simp only [List.foldl_cons, List.filter_cons]
    by_cases hc : jsEqOO (getField lr flt.joinOn) (getField rr flt.equals)
    · simp only [hc, if_true, List.map_cons]
      rw [ih (acc ++ [mergeRow (mergeRow [] ln lr) rn rr])]
      simp
    · simp only [hc, if_false, Bool.false_eq_true]
      exact ih acc

theorem joinRows_eq_flatMap (ln rn : String) (flt : JoinFilter)
    (ld rd : List Record) :
    joinRows ln rn flt ld rd =
      ld.flatMap (fun lr =>
        (rd.filter (fun rr =>
          jsEqOO (getField lr flt.joinOn) (getField rr flt.equals))).map
          (fun rr => mergeRow (mergeRow [] ln lr) rn rr)) := by
  suffices h : ∀ acc : List Record,
      ld.foldl (fun acc lr =>
        rd.foldl (fun acc2 rr =>
          if jsEqOO (getField lr flt.joinOn) (getField rr flt.equals) then
            acc2 ++ [mergeRow (mergeRow [] ln lr) rn rr]
          else acc2) acc) acc
      = acc ++ ld.flatMap (fun lr =>
          (rd.filter (fun rr =>
            jsEqOO (getField lr flt.joinOn) (getField rr flt.equals))).map
            (fun rr => mergeRow (mergeRow [] ln lr) rn rr)) by
    simpa [joinRows] using h []
  induction ld with
  | nil => intro acc; simp
  | cons lr rest ih =>
    intro acc
    simp only [List.foldl_cons, List.flatMap_cons]
    rw [joinInner_eq ln rn flt lr rd acc, ih]
    simp

/-- Claim C5: innerjoin performs a nested-loop join, left iteration order by
right iteration order, emitting — for every pair whose joined fields are
loosely equal (both sides being undefined also joins, as in the source's
loose equality) — one merged record holding all left fields renamed with the
left collection's prefix (none when the left is itself a derived result)
followed by all right fields renamed with the right collection's prefix,
with no deduplication.  Hypotheses: the view is live, the right name is a
synced collection, the registry has no collection named TMPSTORAGE, each
record's renamed keys are distinct, and the renamed key sets of joined pairs
are disjoint (true whenever the two prefixes differ, as in any join of two
distinct collections). -/
theorem innerjoin_characterization (st : MirrorState) (v : StorageView)
    (rn : String) (flt : JoinFilter) (rid : Nat)
    (hT : List.lookup "TMPSTORAGE" st.storageData = none)
    (hrid : List.lookup rn st.storageData = some rid)
    (hvref : v.dataRef < st.heap.length)
    (hrref : rid < st.heap.length)
    (hlnd : ∀ lr ∈ viewData st v, (renKeys v.idbStorageName lr).Nodup)
    (hrnd : ∀ rr ∈ heapGet st.heap rid, (renKeys rn rr).Nodup)
    (hdisj : ∀ lr ∈ viewData st v, ∀ rr ∈ heapGet st.heap rid,
      ∀ k ∈ renKeys rn rr, k ∉ renKeys v.idbStorageName lr) :
    fetchall (callInnerjoin st v rn flt).1 (callInnerjoin st v rn flt).2 =
      (viewData st v).flatMap (fun lr =>
        ((heapGet st.heap rid).filter (fun rr =>
          jsEqOO (getField lr flt.joinOn) (getField rr flt.equals))).map
          (fun rr => renameRec v.idbStorageName lr ++ renameRec rn rr)) := by
  have hmk1 : mkStorage st rn =
      (st, ⟨rn, rid, true, true, true, true, true, true, true⟩) := by
    simp [mkStorage, hrid]
  have hmk2 : mkStorage st "TMPSTORAGE" =
      ({ st with heap := st.heap ++ [[]] },
        ⟨"TMPSTORAGE", st.heap.length,
          true, true, true, true, true, true, true⟩) := by
    simp [mkStorage, hT, heapAlloc]
  have hvd : heapGet (st.heap ++ [[]]) v.dataRef = heapGet st.heap v.dataRef :=
    heapGet_append_lt st.heap [[]] v.dataRef hvref
  have hrd : heapGet (st.heap ++ [[]]) rid = heapGet st.heap rid :=
    heapGet_append_lt st.heap [[]] rid hrref
  have hfetch :
      fetchall (callInnerjoin st v rn flt).1 (callInnerjoin st v rn flt).2 =
        joinRows v.idbStorageName rn flt (viewData st v)
          (heapGet st.heap rid) := by
    simp only [callInnerjoin, hmk1, hmk2, fetchall, viewData, restrictView]
    rw [heapGet_append_self st.heap []]
    rw [heapGet_set_self _ _ _ (by simp)]
    simp only [List.nil_append]
    congr 1
  rw [hfetch, joinRows_eq_flatMap]
  refine flatMap_congr_on _ _ _ ?_
  intro lr hlr
  refine List.map_congr_left ?_
  intro rr hrr
  have hrr' : rr ∈ heapGet st.heap rid := List.mem_of_mem_filter hrr
  have hmerge1 : mergeRow [] v.idbStorageName lr =
      renameRec v.idbStorageName lr := by
    have := mergeRow_eq_append v.idbStorageName lr [] (hlnd lr hlr) (by simp)
    simpa using this
  rw [hmerge1]
  have := mergeRow_eq_append rn rr (renameRec v.idbStorageName lr)
    (hrnd rr hrr')
    (by
      intro k hk
      rw [map_fst_renameRec]
      exact hdisj lr hlr rr hrr' k hk)
  exact this

/-- A Mirror state matching the spec's innerjoin example: X holds one record
{id:1, name:"a"}, Y holds {xid:1, val:"z"} and {xid:2, val:"q"}. -/
def stJoinW : MirrorState :=
  { storageConfig := [("X", { keyPath := "id" }), ("Y", { keyPath := "xid" })]
    storageData := [("X", 0), ("Y", 1)]
    heap := [[[("id", JsValue.num 1), ("name", JsValue.str "a")]],
             [[("xid", JsValue.num 1), ("val", JsValue.str "z")],
              [("xid", JsValue.num 2), ("val", JsValue.str "q")]]] }

/-- The view of X over stJoinW. -/
def vJoinW : StorageView := (mkStorage stJoinW "X").2

/-- Witness for C5 at the spec's example: the join of X and Y on id = xid
yields exactly one merged record with prefixed keys. -/
theorem innerjoin_characterization_witness :
    fetchall (callInnerjoin stJoinW vJoinW "Y" ⟨"id", "xid"⟩).1
        (callInnerjoin stJoinW vJoinW "Y" ⟨"id", "xid"⟩).2 =
      [[("X.id", JsValue.num 1), ("X.name", JsValue.str "a"),
        ("Y.xid", JsValue.num 1), ("Y.val", JsValue.str "z")]] := by
  have h := innerjoin_characterization stJoinW vJoinW "Y" ⟨"id", "xid"⟩ 1
    rfl rfl (by decide) (by decide) (by decide) (by decide) (by decide)
  rw [h]
  decide

/-- Claim C7: every derived result collection returned by select or
innerjoin has its seven method slots getTransaction, truncate, insert, get,
getIndex, delete and update set to undefined, so invoking any of them throws
a TypeError and leaves the state untouched — while fetchall, match, select,
innerjoin and count remain available (the model never disables them,
mirroring the source, which unsets exactly the seven slots listed in its
comment). -/
theorem derived_result_disabled_ops (st : MirrorState) (v : StorageView)
    (fields : List String) (rn : String) (flt : JoinFilter) (o : Record)
    (key : JsValue) (cs : List FieldFilter) :
    (callGetTransaction (callSelect st v fields).1
        (callSelect st v fields).2 =
      ((callSelect st v fields).1, .error "TypeError")) ∧
    (callTruncate (callSelect st v fields).1 (callSelect st v fields).2 =
      ((callSelect st v fields).1, .error "TypeError")) ∧
    (callInsert (callSelect st v fields).1 (callSelect st v fields).2 o =
      ((callSelect st v fields).1, .error "TypeError")) ∧
    (callGet (callSelect st v fields).1 (callSelect st v fields).2 key =
      ((callSelect st v fields).1, .error "TypeError")) ∧
    (callGetIndex (callSelect st v fields).1 (callSelect st v fields).2 key =
      ((callSelect st v fields).1, .error "TypeError")) ∧
    (callDelete (callSelect st v fields).1 (callSelect st v fields).2 key =
      ((callSelect st v fields).1, .error "TypeError")) ∧
    (callUpdate (callSelect st v fields).1 (callSelect st v fields).2 key cs =
      ((callSelect st v fields).1, .error "TypeError")) ∧
    (callGetTransaction (callInnerjoin st v rn flt).1
        (callInnerjoin st v rn flt).2 =
      ((callInnerjoin st v rn flt).1, .error "TypeError")) ∧
    (callTruncate (callInnerjoin st v rn flt).1
        (callInnerjoin st v rn flt).2 =
      ((callInnerjoin st v rn flt).1, .error "TypeError")) ∧
    (callInsert (callInnerjoin st v rn flt).1
        (callInnerjoin st v rn flt).2 o =
      ((callInnerjoin st v rn flt).1, .error "TypeError")) ∧
    (callGet (callInnerjoin st v rn flt).1
        (callInnerjoin st v rn flt).2 key =
      ((callInnerjoin st v rn flt).1, .error "TypeError")) ∧
    (callGetIndex (callInnerjoin st v rn flt).1
        (callInnerjoin st v rn flt).2 key =
      ((callInnerjoin st v rn flt).1, .error "TypeError")) ∧
    (callDelete (callInnerjoin st v rn flt).1
        (callInnerjoin st v rn flt).2 key =
      ((callInnerjoin st v rn flt).1, .error "TypeError")) ∧
    (callUpdate (callInnerjoin st v rn flt).1
        (callInnerjoin st v rn flt).2 key cs =
      ((callInnerjoin st v rn flt).1, .error "TypeError")) := by
  refine ⟨rfl, rfl, rfl, rfl, rfl, rfl, rfl, rfl, rfl, rfl, rfl, rfl, rfl,
    rfl⟩

/-! ## Claim C8: insert then get -/

theorem jsEq_refl (w : JsValue) : jsEq w w = true := by
  cases w <;> simp [jsEq]

theorem scanIdx_append_concat (p : Record → Bool) (l : List Record)
    (o : Record) (hall : ∀ r ∈ l, p r = false) (ho : p o = true) :
    scanIdx p (l ++ [o]) = some l.length := by
  induction l with
  | nil => simp [scanIdx, ho]
  | cons r rest ih =>
    simp only [List.cons_append, scanIdx, hall r (List.mem_cons_self _ _),
      Bool.false_eq_true, if_false, List.append_eq]
    rw [ih (fun r' hr' => hall r' (List.mem_cons_of_mem _ hr'))]
    rfl

/-- Claim C8 (amended): inserting record o through a live view of a
configured collection returns o unchanged, and an immediately following get
on o's key-field value returns o itself, without any further sync of the
persistent store — provided no record already in the collection has a
key-field value loosely equal to o's (the counterexample theorem shows the
duplicate-key failure of the unconditional claim). -/
theorem insert_then_get_returns_inserted (st : MirrorState) (v : StorageView)
    (o : Record) (kp : String) (kv : JsValue)
    (hkp : keyPathOf st v.idbStorageName = some kp)
    (hins : v.hasInsert = true) (hget : v.hasGet = true)
    (hvref : v.dataRef < st.heap.length)
    (hkey : getField o kp = some kv)
    (hfresh : ∀ r ∈ viewData st v, jsEqLV (getField r kp) kv = false) :
    (callInsert st v o).2 = .ok o ∧
    callGet (callInsert st v o).1 v kv =
      ((callInsert st v o).1, .ok (some o)) := by
  obtain ⟨opts, hlo, hkpe⟩ : ∃ opts,
      List.lookup v.idbStorageName st.storageConfig = some opts ∧
        opts.keyPath = kp := by
    unfold keyPathOf at hkp
    cases hl : List.lookup v.idbStorageName st.storageConfig with
    | none => rw [hl] at hkp; cases hkp
    | some opts =>
      rw [hl] at hkp
      simp only [Option.map_some', Option.some.injEq] at hkp
      exact ⟨opts, rfl, hkp⟩
  have hexists : storeExists st v.idbStorageName = true := by
    simp [storeExists, hlo]
  have hstate : (callInsert st v o).1 =
      { st with heap := heapSet st.heap v.dataRef (viewData st v ++ [o]) } := by
    simp [callInsert, hins, hexists, storeExists, hlo, viewData]
  have hout : (callInsert st v o).2 = .ok o := by
    simp [callInsert, hins, hexists, storeExists, hlo]
  refine ⟨hout, ?_⟩
  have hvd1 : viewData
      { st with heap := heapSet st.heap v.dataRef (viewData st v ++ [o]) } v =
      viewData st v ++ [o] := by
    simp only [viewData]
    exact heapGet_set_self st.heap v.dataRef _ hvref
  have hpo : jsEqLV (getField o kp) kv = true := by
    rw [hkey]
    simp [jsEqLV]
    cases hkv : kv <;> simp [jsEq_refl]
  have hscan : scanIdx (fun r => jsEqLV (getField r kp) kv)
      (viewData st v ++ [o]) = some (viewData st v).length :=
    scanIdx_append_concat _ _ _ hfresh hpo
  rw [hstate]
  simp only [callGet, hget, if_true, getRaw, getIndexRaw, keyPathOf, hlo,
    Option.map_some', hkpe, hvd1, hscan]
  rw [List.getElem?_concat_length]

/-- Claim C8 counterexample: with recA (key 1) already present, inserting
recB (same key 1) returns recB, but the immediately following get(1)
returns the earlier recA — the linear scan finds the first record with the
key — so get(keyOf(r)) does not return the freshly inserted record. -/
theorem insert_then_get_duplicate_key_returns_other :
    (callInsert stOneRec vOneRec recB).2 = .ok recB ∧
    callGet (callInsert stOneRec vOneRec recB).1 vOneRec (JsValue.num 1) =
      ((callInsert stOneRec vOneRec recB).1, .ok (some recA)) ∧
    recA ≠ recB := by
  decide

/-- Witness for C8: inserting recA into the empty collection X and reading
key 1 back returns recA. -/
theorem insert_then_get_returns_inserted_witness :
    (callInsert stEmptyX vEmptyX recA).2 = .ok recA ∧
    callGet (callInsert stEmptyX vEmptyX recA).1 vEmptyX (JsValue.num 1) =
      ((callInsert stEmptyX vEmptyX recA).1, .ok (some recA)) :=
  insert_then_get_returns_inserted stEmptyX vEmptyX recA "id" (JsValue.num 1)
    rfl rfl rfl (by decide) rfl (by decide)

/-! ## Claim C9: update -/

/-- The last value assigned to field f by the changes sequence — the source
applies changes left to right, so the later assignment wins. -/
def lastChange (cs : List FieldFilter) (f : String) : Option JsValue :=
  cs.foldl (fun acc c => if c.key = f then some c.value else acc) none

theorem lastChange_foldl (f : String) :
    ∀ (cs : List FieldFilter) (init : Option JsValue),
      cs.foldl (fun acc c => if c.key = f then some c.value else acc) init =
        match lastChange cs f with
        | some w => some w
        | none => init := by
  intro cs
  induction cs with
  | nil => intro init; rfl
  | cons c rest ih =>
    intro init
    have hc : lastChange (c :: rest) f =
        match lastChange rest f with
        | some w => some w
        | none => if c.key = f then some c.value else none := by
      unfold lastChange
      simp only [List.foldl_cons]
      rw [ih]
      rfl
    simp only [List.foldl_cons]
    rw [ih, hc]
    cases lastChange rest f with
    | some w => rfl
    | none =>
      by_cases hk : c.key = f
      · simp [hk]
      · simp [hk]

theorem getField_assocPut (r : Record) (k k' : String) (v : JsValue) :
    getField (assocPut r k v) k' =
      if k' = k then some v else getField r k' := by
  induction r with
  | nil =>
    simp only [assocPut, getField, List.lookup_cons, List.lookup_nil]
    by_cases h : k' = k
    · subst h; simp
    · rw [beq_eq_false_iff_ne.mpr h]
      simp [h]
  | cons kv rest ih =>
    rcases kv with ⟨a, b⟩
    by_cases hak : a = k
    · subst hak
      by_cases h : k' = a
      · subst h
        simp [assocPut, getField, List.lookup_cons]
      · simp [assocPut, getField, List.lookup_cons,
          beq_eq_false_iff_ne.mpr h, h]
    · simp only [assocPut, if_neg hak, getField, List.lookup_cons]
      by_cases h : k' = a
      · have hbeq : (k' == a) = true := beq_iff_eq.mpr h
        have hkk : ¬ k' = k := fun hh => hak (h.symm.trans hh)
        simp [hbeq, hkk]
      · have hbeq : (k' == a) = false := beq_eq_false_iff_ne.mpr h
        simp only [hbeq]
        rw [show List.lookup k' (assocPut rest k v) =
          getField (assocPut rest k v) k' from rfl, ih]
        by_cases hkk : k' = k
        · simp [hkk]
        · simp [hkk, getField]

theorem getField_applyChanges (cs : List FieldFilter) :
    ∀ (r : Record) (f : String),
      getField (applyChanges r cs) f =
        match lastChange cs f with
        | some w => some w
        | none => getField r f := by
  induction cs with
  | nil => intro r f; rfl
  | cons c rest ih =>
    intro r f
    have hc : lastChange (c :: rest) f =
        match lastChange rest f with
        | some w => some w
        | none => if c.key = f then some c.value else none := by
      unfold lastChange
      simp only [List.foldl_cons]
      rw [lastChange_foldl]
      rfl
    simp only [applyChanges, List.foldl_cons]
    rw [show List.foldl (fun a c => assocPut a c.key c.value)
        (assocPut r c.key c.value) rest =
        applyChanges (assocPut r c.key c.value) rest from rfl]
    rw [ih, hc, getField_assocPut]
    cases lastChange rest f with
    | some w => rfl
    | none =>
      by_cases hk : c.key = f
      · subst hk
        simp
      · have hk' : ¬ f = c.key := fun hh => hk hh.symm
        simp [hk, hk']

/-- Claim C9: for a collection containing a record at key k (at scan index
i), update(k, changes) succeeds, sets each changed field to its new value
with the later entry winning when two changes target the same field, leaves
every field not named in the changes unchanged — this is the lastChange
characterization in the last conjunct — and leaves the record at the same
position i of the in-memory sequence. -/
theorem update_applies_changes_in_place (st : MirrorState) (v : StorageView)
    (key : JsValue) (cs : List FieldFilter) (i : Nat) (r : Record)
    (hupd : v.hasUpdate = true)
    (hvref : v.dataRef < st.heap.length)
    (hidx : getIndexRaw st v key = .ok (some i))
    (hr : (viewData st v)[i]? = some r) :
    (callUpdate st v key cs).2 = .ok () ∧
    (viewData (callUpdate st v key cs).1 v)[i]? =
      some (applyChanges r cs) ∧
    (∀ f : String, getField (applyChanges r cs) f =
      match lastChange cs f with
      | some w => some w
      | none => getField r f) := by
  have hilen : i < (viewData st v).length := (List.getElem?_eq_some.mp hr).1
  obtain ⟨kp, hkp⟩ : ∃ kp, keyPathOf st v.idbStorageName = some kp := by
    unfold getIndexRaw at hidx
    cases hl : keyPathOf st v.idbStorageName with
    | none => rw [hl] at hidx; cases hidx
    | some kp => exact ⟨kp, rfl⟩
  have main : (callUpdate st v key cs).2 = .ok () ∧
      (viewData (callUpdate st v key cs).1 v)[i]? =
        some (applyChanges r cs) := by
    have hvd1 : viewData
        { st with
          heap := heapSet st.heap v.dataRef
            ((viewData st v).set i (applyChanges r cs)) } v =
        (viewData st v).set i (applyChanges r cs) := by
      simp only [viewData]
      exact heapGet_set_self _ _ _ hvref
    have hkp1 : keyPathOf
        { st with
          heap := heapSet st.heap v.dataRef
            ((viewData st v).set i (applyChanges r cs)) }
        v.idbStorageName = some kp := hkp
    have hscan1 : getIndexRaw
        { st with
          heap := heapSet st.heap v.dataRef
            ((viewData st v).set i (applyChanges r cs)) } v key =
        .ok (scanIdx (fun rr => jsEqLV (getField rr kp) key)
          ((viewData st v).set i (applyChanges r cs))) := by
      simp only [getIndexRaw, hkp1, hvd1]
    simp only [callUpdate, hupd, if_true, hidx, hr, hscan1]
    cases hs : scanIdx (fun rr => jsEqLV (getField rr kp) key)
        ((viewData st v).set i (applyChanges r cs)) with
    | none =>
      refine ⟨rfl, ?_⟩
      simp only [viewData]
      rw [heapGet_set_self _ _ _ hvref]
      exact List.getElem?_set_eq_of_lt _ hilen
    | some j =>
      refine ⟨rfl, ?_⟩
      simp only [viewData]
      rw [heapGet_set_self _ _ _ (by simpa [heapSet] using hvref)]
      by_cases hji : j = i
      · rw [hji]
        rw [List.getElem?_set_eq_of_lt _ (by simpa using hilen)]
      · rw [List.getElem?_set_ne hji]
        exact List.getElem?_set_eq_of_lt _ hilen
  exact ⟨main.1, main.2, fun f => getField_applyChanges cs r f⟩

/-- A Mirror state whose collection X holds one record with id, a, b. -/
def stUpdW : MirrorState :=
  { storageConfig := [("X", { keyPath := "id" })]
    storageData := [("X", 0)]
    heap := [[[("id", JsValue.num 1), ("a", JsValue.num 1),
               ("b", JsValue.num 2)]]] }

/-- The view of X over stUpdW. -/
def vUpdW : StorageView := (mkStorage stUpdW "X").2

/-- Witness for C9: a concrete update with two changes to the same field a
(the later one, 20, wins), a change adding field c, key and b untouched, at
position 0. -/
theorem update_applies_changes_in_place_witness :
    (callUpdate stUpdW vUpdW (JsValue.num 1)
      [⟨"a", JsValue.num 10⟩, ⟨"a", JsValue.num 20⟩,
       ⟨"c", JsValue.num 5⟩]).2 = .ok () ∧
    (viewData (callUpdate stUpdW vUpdW (JsValue.num 1)
      [⟨"a", JsValue.num 10⟩, ⟨"a", JsValue.num 20⟩,
       ⟨"c", JsValue.num 5⟩]).1 vUpdW)[0]? =
      some [("id", JsValue.num 1), ("a", JsValue.num 20),
            ("b", JsValue.num 2), ("c", JsValue.num 5)] := by
  have h := update_applies_changes_in_place stUpdW vUpdW (JsValue.num 1)
    [⟨"a", JsValue.num 10⟩, ⟨"a", JsValue.num 20⟩, ⟨"c", JsValue.num 5⟩]
    0 [("id", JsValue.num 1), ("a", JsValue.num 1), ("b", JsValue.num 2)]
    rfl (by decide) (by decide) rfl
  refine ⟨h.1, ?_⟩
  rw [h.2.1]
  decide

/-! ## Claim C10: with, aliasing, detached views -/

theorem callInsert_fst (st : MirrorState) (v : StorageView) (o : Record)
    (hins : v.hasInsert = true) :
    (callInsert st v o).1 =
      { st with
        heap := heapSet st.heap v.dataRef
          (heapGet st.heap v.dataRef ++ [o]) } := by
  simp only [callInsert, hins, if_true]
  split <;> rfl

theorem callDelete_found (st : MirrorState) (v : StorageView) (key : JsValue)
    (i : Nat) (hdel : v.hasDelete = true)
    (hidx : getIndexRaw st v key = .ok (some i)) :
    (callDelete st v key).1 =
      { st with
        heap := heapSet st.heap v.dataRef ((viewData st v).eraseIdx i) } := by
  unfold callDelete
  rw [if_pos hdel, hidx]

/-- Claim C10: for a name bound in the registry (as every name loaded by
sync is, see the sync invariant), with(name) leaves the state untouched and
returns the view holding the registry's array id — so every view of that
name reads the same backing array, and an insert (or a successful delete)
through the view is observed by fetchall and count of any view of that name;
whereas for a name the registry never learned, each with(name) call binds
the view to a fresh detached empty array that is not recorded, so an insert
through such a view is invisible to every later with(name) view of that
name. -/
theorem with_views_alias_registry_array (st : MirrorState) (name : String)
    (o : Record) (key : JsValue) :
    (∀ id : Nat, List.lookup name st.storageData = some id →
      id < st.heap.length →
      ((mirrorWith st name).1 = st ∧
       (mirrorWith st name).2.dataRef = id ∧
       fetchall (callInsert st (mirrorWith st name).2 o).1
           (mirrorWith st name).2 =
         fetchall st (mirrorWith st name).2 ++ [o] ∧
       countRecords (callInsert st (mirrorWith st name).2 o).1
           (mirrorWith st name).2 =
         countRecords st (mirrorWith st name).2 + 1 ∧
       (∀ i : Nat,
         getIndexRaw st (mirrorWith st name).2 key = .ok (some i) →
         fetchall (callDelete st (mirrorWith st name).2 key).1
             (mirrorWith st name).2 =
           (fetchall st (mirrorWith st name).2).eraseIdx i))) ∧
    (List.lookup name st.storageData = none →
      ((mirrorWith st name).2.dataRef = st.heap.length ∧
       List.lookup name
         ((callInsert (mirrorWith st name).1
           (mirrorWith st name).2 o).1).storageData = none ∧
       (mirrorWith (callInsert (mirrorWith st name).1
           (mirrorWith st name).2 o).1 name).2.dataRef ≠
         (mirrorWith st name).2.dataRef ∧
       fetchall
         (mirrorWith (callInsert (mirrorWith st name).1
             (mirrorWith st name).2 o).1 name).1
         (mirrorWith (callInsert (mirrorWith st name).1
             (mirrorWith st name).2 o).1 name).2 = [])) := by
  constructor
  · intro id hid hlt
    have hmk : mirrorWith st name =
        (st, ⟨name, id, true, true, true, true, true, true, true⟩) := by
      simp [mirrorWith, mkStorage, hid]
    rw [hmk]
    dsimp only
    refine ⟨rfl, rfl, ?_, ?_, ?_⟩
    · rw [callInsert_fst st _ o rfl]
      simp only [fetchall, viewData]
      exact heapGet_set_self _ _ _ hlt
    · rw [callInsert_fst st _ o rfl]
      simp only [countRecords, viewData]
      rw [heapGet_set_self _ _ _ hlt]
      simp
    · intro i hdel
      rw [callDelete_found st _ key i rfl hdel]
      simp only [fetchall, viewData]
      exact heapGet_set_self _ _ _ hlt
  · intro hnone
    have hmk : mirrorWith st name =
        ({ st with heap := st.heap ++ [[]] },
          ⟨name, st.heap.length,
            true, true, true, true, true, true, true⟩) := by
      simp [mirrorWith, mkStorage, hnone, heapAlloc]
    have hs2 : (callInsert (mirrorWith st name).1
        (mirrorWith st name).2 o).1 =
        { st with
          heap := heapSet (st.heap ++ [[]]) st.heap.length
            (heapGet (st.heap ++ [[]]) st.heap.length ++ [o]) } := by
      rw [hmk, callInsert_fst _ _ o rfl]
    have hmk2 : mirrorWith (callInsert (mirrorWith st name).1
        (mirrorWith st name).2 o).1 name =
        ({ st with
            heap := heapSet (st.heap ++ [[]]) st.heap.length
              (heapGet (st.heap ++ [[]]) st.heap.length ++ [o]) ++ [[]] },
          ⟨name, st.heap.length + 1,
            true, true, true, true, true, true, true⟩) := by
      rw [hs2]
      simp [mirrorWith, mkStorage, hnone, heapAlloc, heapSet]
    refine ⟨by rw [hmk], by rw [hs2]; exact hnone, by rw [hmk2, hmk]; simp,
      ?_⟩
    rw [hmk2]
    simp only [fetchall, viewData]
    rw [show st.heap.length + 1 = (heapSet (st.heap ++ [[]]) st.heap.length
        (heapGet (st.heap ++ [[]]) st.heap.length ++ [o])).length by
      simp [heapSet]]
    exact heapGet_append_self _ []

/-- Witness for C10: inserting recA through the view of the synced (empty)
collection X is observed by fetchall through a view of that name; for the
never-synced name Q, the insert through one with(Q) view is invisible to a
later with(Q) view, which reads an empty sequence. -/
theorem with_views_alias_registry_array_witness :
    fetchall (callInsert stEmptyX (mirrorWith stEmptyX "X").2 recA).1
        (mirrorWith stEmptyX "X").2 = [recA] ∧
    fetchall
        (mirrorWith (callInsert (mirrorWith stEmptyX "Q").1
            (mirrorWith stEmptyX "Q").2 recA).1 "Q").1
        (mirrorWith (callInsert (mirrorWith stEmptyX "Q").1
            (mirrorWith stEmptyX "Q").2 recA).1 "Q").2 = [] := by
  constructor
  · have h := ((with_views_alias_registry_array stEmptyX "X" recA
      (JsValue.num 1)).1 0 (by decide) (by decide)).2.2.1
    rw [h]
    decide
  · exact ((with_views_alias_registry_array stEmptyX "Q" recA
      (JsValue.num 1)).2 (by decide)).2.2.2
